import Mathlib

/-!
# Verification of the MRMS hail-swath pipeline

Shallow embedding of the repository's core modules:

* `processing/polygonize.py` — `composite_max`, the per-geometry transform
  sequence of `_polygonize_threshold`, and `THRESHOLDS_INCHES`;
* `processing/decoder.py` — the sentinel/unit normalisation of `decode_grib2`;
* `db/repository.py` — `swaths_exist`, `insert_swaths`, `get_swaths`, and the
  per-feature clip of `_clip_features_to_bbox`;
* `pipeline/transformer.py` — `Transformer.run` as a function of an external
  world (S3 listing / fetch / decode / extraction oracles), a database value,
  and a date string, returning the result plus the trace of external calls.

Floating-point grid cells are modelled as `Option ℚ`, with `none` standing for
the IEEE NaN missing sentinel; `np.fmax` ignores NaN unless both operands are
NaN, which is exactly `fmax` below.
-/

namespace HailSwaths

/-- A grid cell: `none` is the NaN missing-data sentinel, `some v` a real value. -/
abbrev Cell := Option ℚ

/-- A decoded grid, flattened to a list of cells (`numpy` array of floats). -/
abbrev Grid := List Cell

/-- `np.fmax` on two cells: the NaN sentinel loses to any real value and wins
only against another NaN. -/
def fmax : Cell → Cell → Cell
  | none, b => b
  | some a, none => some a
  | some a, some b => some (max a b)

/-- Element-wise `np.fmax` of two grids (`np.fmax(result, arr, out=result)`
viewed as a pure value). -/
def gmax (a b : Grid) : Grid := List.zipWith fmax a b

/-- `composite_max` from `processing/polygonize.py`:

    result = arrays[0].copy()
    for arr in arrays[1:]:
        np.fmax(result, arr, out=result)
    return result

`arrays[0]` raises `IndexError` on an empty list, modelled as `none`. -/
def composite_max : List Grid → Option Grid
  | [] => none
  | a :: rest => some (rest.foldl (fun acc arr => gmax acc arr) a)

theorem fmax_comm (a b : Cell) : fmax a b = fmax b a := by
  cases a <;> cases b <;> simp [fmax, max_comm]

theorem fmax_assoc (a b c : Cell) : fmax (fmax a b) c = fmax a (fmax b c) := by
  cases a <;> cases b <;> cases c <;> simp [fmax, max_assoc]

theorem fmax_none_right (a : Cell) : fmax a none = a := by
  cases a <;> rfl

theorem fmax_none_left (a : Cell) : fmax none a = a := rfl

theorem fmax_eq_none_iff (a b : Cell) : fmax a b = none ↔ a = none ∧ b = none := by
  cases a <;> cases b <;> simp [fmax]

theorem gmax_comm (a : Grid) : ∀ b, gmax a b = gmax b a := by
  induction a with
  | nil => intro b; cases b <;> rfl
  | cons x xs ih =>
      intro b
      cases b with
      | nil => rfl
      | cons y ys => simp [gmax, List.zipWith] at ih ⊢; exact ⟨fmax_comm x y, ih ys⟩

theorem gmax_assoc (a : Grid) : ∀ b c, gmax (gmax a b) c = gmax a (gmax b c) := by
  induction a with
  | nil => intro b c; rfl
  | cons x xs ih =>
      intro b c
      cases b with
      | nil => rfl
      | cons y ys =>
          cases c with
          | nil => rfl
          | cons z zs =>
              simp [gmax, List.zipWith] at ih ⊢
              exact ⟨fmax_assoc x y z, ih ys zs⟩

/-- The all-missing grid of length `n`: identity for `gmax` on grids of length `n`. -/
def missingGrid (n : Nat) : Grid := List.replicate n none

theorem gmax_missing_left (g : Grid) : gmax (missingGrid g.length) g = g := by
  induction g with
  | nil => rfl
  | cons x xs ih => simp [missingGrid, gmax, List.zipWith, fmax_none_left] at ih ⊢; exact ih

theorem gmax_length (a b : Grid) : (gmax a b).length = min a.length b.length := by
  simp [gmax]

/-- `foldl` over a permutation, for a right-commutative operation. -/
theorem foldl_perm {α β : Type} (f : β → α → β)
    (H : ∀ b x y, f (f b x) y = f (f b y) x) :
    ∀ {l₁ l₂ : List α}, l₁.Perm l₂ → ∀ b, l₁.foldl f b = l₂.foldl f b := by
  intro l₁ l₂ hp
  induction hp with
  | nil => intro b; rfl
  | cons x _ ih => intro b; simpa using ih (f b x)
  | swap x y l => intro b; simp [List.foldl, H]
  | trans _ _ ih₁ ih₂ => intro b; exact (ih₁ b).trans (ih₂ b)

theorem gmax_right_comm (b x y : Grid) : gmax (gmax b x) y = gmax (gmax b y) x := by
  rw [gmax_assoc, gmax_assoc, gmax_comm x y]

/-- `composite_max` on a non-empty list of grids of common length `n` equals the
fold of `gmax` starting from the all-missing grid. -/
theorem composite_max_eq_foldl (n : Nat) :
    ∀ (l : List Grid), l ≠ [] → (∀ g ∈ l, g.length = n) →
      composite_max l = some (l.foldl gmax (missingGrid n)) := by
  intro l hne hlen
  cases l with
  | nil => exact absurd rfl hne
  | cons a rest =>
      have ha : a.length = n := hlen a (by simp)
      simp [composite_max, List.foldl]
      rw [show gmax (missingGrid n) a = a from ha ▸ gmax_missing_left a]

theorem missingGrid_length (n : Nat) : (missingGrid n).length = n := by
  simp [missingGrid]

theorem foldl_gmax_length (n : Nat) :
    ∀ (l : List Grid) (acc : Grid), acc.length = n → (∀ g ∈ l, g.length = n) →
      (l.foldl gmax acc).length = n := by
  intro l
  induction l with
  | nil => intro acc ha _; simpa using ha
  | cons g gs ih =>
      intro acc ha hl
      have hg : g.length = n := hl g (by simp)
      have : (gmax acc g).length = n := by rw [gmax_length, ha, hg, Nat.min_self]
      exact ih _ this (fun x hx => hl x (by simp [hx]))

theorem gmax_get? (a b : Grid) (i : Nat) (h : a.length = b.length) :
    (gmax a b).get? i =
      match a.get? i, b.get? i with
      | some x, some y => some (fmax x y)
      | _, _ => none := by
  induction a generalizing b i with
  | nil =>
      cases b with
      | nil => simp [gmax]
      | cons y ys => simp at h
  | cons x xs ih =>
      cases b with
      | nil => simp at h
      | cons y ys =>
          cases i with
          | zero => simp [gmax]
          | succ j =>
              simp only [gmax, List.zipWith, List.get?] at ih ⊢
              exact ih ys j (by simpa using h)

theorem missingGrid_get? (n i : Nat) (h : i < n) :
    (missingGrid n).get? i = some none := by
  induction n generalizing i with
  | zero => omega
  | succ m ih =>
      cases i with
      | zero => rfl
      | succ j => exact ih j (by omega)

/-- Cell `i` of the fold is missing iff it is missing in the accumulator and in
every grid of the list. -/
theorem foldl_gmax_missing_iff (n : Nat) (i : Nat) (hi : i < n) :
    ∀ (l : List Grid) (acc : Grid), acc.length = n → (∀ g ∈ l, g.length = n) →
      ((l.foldl gmax acc).get? i = some none ↔
        acc.get? i = some none ∧ ∀ g ∈ l, g.get? i = some none) := by
  intro l
  induction l with
  | nil => intro acc _ _; simp
  | cons g gs ih =>
      intro acc ha hl
      have hg : g.length = n := hl g (by simp)
      have hlen : (gmax acc g).length = n := by rw [gmax_length, ha, hg, Nat.min_self]
      have step := ih (gmax acc g) hlen (fun x hx => hl x (by simp [hx]))
      have hacc : acc.get? i ≠ none := by
        intro hcontra
        rw [List.get?_eq_none] at hcontra
        omega
      have hgg : g.get? i ≠ none := by
        intro hcontra
        rw [List.get?_eq_none] at hcontra
        omega
      obtain ⟨x, hx⟩ := Option.ne_none_iff_exists'.mp hacc
      obtain ⟨y, hy⟩ := Option.ne_none_iff_exists'.mp hgg
      have hcell : (gmax acc g).get? i = some (fmax x y) := by
        rw [gmax_get? acc g i (by omega), hx, hy]
      simp only [List.foldl, step, hcell, hx, hy, List.mem_cons]
      constructor
      · rintro ⟨h1, h2⟩
        have := fmax_eq_none_iff x y
        have hxy : x = none ∧ y = none := this.mp (by injection h1)
        exact ⟨by rw [hxy.1], fun g' hg' => by
          rcases hg' with hg' | hg'
          · rw [hg', hy, hxy.2]
          · exact h2 g' hg'⟩
      · rintro ⟨h1, h2⟩
        have hxn : x = none := by injection h1
        have hyn : y = none := by
          have := h2 g (Or.inl rfl)
          rw [hy] at this; injection this
        exact ⟨by rw [hxn, hyn]; rfl, fun g' hg' => h2 g' (Or.inr hg')⟩

/-- C7: `composite_max` over any permutation of a non-empty list of same-shape
grids yields an identical per-cell result; the NaN sentinel is the identity of
`fmax` (`max(v, missing) = v`); and a cell is missing in the composite iff it
is missing in every input grid. -/
theorem composite_max_perm_invariant (n : Nat) (l l' : List Grid)
    (hp : l.Perm l') (hlen : ∀ g ∈ l, g.length = n) (hne : l ≠ []) :
    composite_max l = composite_max l' ∧
    (∀ v : Cell, fmax v none = v ∧ fmax none v = v) ∧
    (∀ res, composite_max l = some res → ∀ i, i < n →
      (res.get? i = some none ↔ ∀ g ∈ l, g.get? i = some none)) := by
  have hlen' : ∀ g ∈ l', g.length = n := fun g hg => hlen g (hp.mem_iff.mpr hg)
  have hne' : l' ≠ [] := by
    intro hcontra
    have := hp.length_eq
    rw [hcontra] at this
    exact hne (List.length_eq_zero.mp this)
  refine ⟨?_, fun v => ⟨fmax_none_right v, fmax_none_left v⟩, ?_⟩
  · rw [composite_max_eq_foldl n l hne hlen, composite_max_eq_foldl n l' hne' hlen']
    exact congrArg some (foldl_perm gmax gmax_right_comm hp (missingGrid n))
  · intro res hres i hi
    rw [composite_max_eq_foldl n l hne hlen] at hres
    have hres' : res = l.foldl gmax (missingGrid n) := (Option.some.inj hres).symm
    subst hres'
    have := foldl_gmax_missing_iff n i hi l (missingGrid n) (missingGrid_length n) hlen
    rw [this, missingGrid_get? n i hi]
    simp

theorem composite_max_perm_invariant_witness :
    composite_max [[some 1, none], [none, (some 2 : Cell)]] =
      composite_max [[none, (some 2 : Cell)], [some 1, none]] :=
  (composite_max_perm_invariant 2 _ _
      (List.Perm.swap _ _ _) (by decide) (by decide)).1

/-! ### Heap-passing model of `composite_max` (frame property)

`composite_max` mutates its accumulator in place (`np.fmax(result, arr,
out=result)`). To settle the frame claim we re-express it with an explicit
heap: the heap is the list of live numpy arrays, callers pass indices into it,
and `result = arrays[0].copy()` allocates a fresh cell at index `heap.length`.
Every `np.fmax(..., out=result)` writes only to that fresh cell. -/

/-- The `for arr in arrays[1:]` loop: fold `np.fmax` into the accumulator cell
`rIdx`, reading each input array `j` from the heap. A dangling index is `none`
(an `IndexError`). -/
def fmaxLoop (rIdx : Nat) : List Nat → List Grid → Option (List Grid)
  | [], h => some h
  | j :: rest, h =>
    match h.get? rIdx, h.get? j with
    | some r, some a => fmaxLoop rIdx rest (h.set rIdx (gmax r a))
    | _, _ => none

/-- `composite_max` with the heap explicit: `ids` are the caller's array
indices; returns the new heap and the composite. `arrays[0]` on an empty list
(`IndexError`) is `none`. -/
def composite_max_heap (heap : List Grid) (ids : List Nat) : Option (List Grid × Grid) :=
  match ids with
  | [] => none
  | i0 :: rest =>
    match heap.get? i0 with
    | none => none
    | some a0 =>
      match fmaxLoop heap.length rest (heap ++ [a0]) with
      | none => none
      | some h2 =>
        match h2.get? heap.length with
        | none => none
        | some r => some (h2, r)

theorem list_get?_set_ne {α : Type} (l : List α) (i j : Nat) (a : α) (h : i ≠ j) :
    (l.set i a).get? j = l.get? j := by
  induction l generalizing i j with
  | nil => simp
  | cons x xs ih =>
      cases i with
      | zero => cases j with
        | zero => omega
        | succ j' => simp [List.set]
      | succ i' => cases j with
        | zero => simp [List.set]
        | succ j' => simpa [List.set] using ih i' j' (by omega)

theorem fmaxLoop_frame (rIdx : Nat) :
    ∀ (ids : List Nat) (h h2 : List Grid), fmaxLoop rIdx ids h = some h2 →
      ∀ i, i ≠ rIdx → h2.get? i = h.get? i := by
  intro ids
  induction ids with
  | nil => intro h h2 hrun i _; simp [fmaxLoop] at hrun; rw [hrun]
  | cons j rest ih =>
      intro h h2 hrun i hi
      simp only [fmaxLoop] at hrun
      cases hr : h.get? rIdx with
      | none => rw [hr] at hrun; simp at hrun
      | some r =>
          cases ha : h.get? j with
          | none => rw [hr, ha] at hrun; simp at hrun
          | some a =>
              rw [hr, ha] at hrun
              have := ih (h.set rIdx (gmax r a)) h2 hrun i hi
              rw [this, list_get?_set_ne h rIdx i (gmax r a) (fun hc => hi hc.symm)]

theorem list_get?_append_left {α : Type} (l₁ l₂ : List α) (i : Nat) (h : i < l₁.length) :
    (l₁ ++ l₂).get? i = l₁.get? i := by
  induction l₁ generalizing i with
  | nil => simp at h
  | cons x xs ih =>
      cases i with
      | zero => rfl
      | succ i' => simpa using ih i' (by simpa using h)

/-- C10: `composite_max` leaves every input array unchanged — the accumulator
is a fresh copy of the first array, and the mutation loop writes only to it. -/
theorem composite_max_heap_frame (heap : List Grid) (ids : List Nat)
    (h2 : List Grid) (r : Grid)
    (hrun : composite_max_heap heap ids = some (h2, r)) :
    ∀ i, i < heap.length → h2.get? i = heap.get? i := by
  intro i hi
  unfold composite_max_heap at hrun
  split at hrun
  · simp at hrun
  next i0 rest =>
    split at hrun
    · simp at hrun
    next a0 ha0 =>
      split at hrun
      · simp at hrun
      next hmid hloop =>
        split at hrun
        · simp at hrun
        next r' hres =>
          have hh2 : hmid = h2 := by
            simp at hrun; exact hrun.1
          subst hh2
          have := fmaxLoop_frame heap.length rest (heap ++ [a0]) hmid hloop i (by omega)
          rw [this, list_get?_append_left heap [a0] i hi]

theorem composite_max_heap_frame_witness :
    ([[(some 1 : Cell)], [(some 1 : Cell)]] : List Grid).get? 0 =
      ([[(some 1 : Cell)]] : List Grid).get? 0 :=
  composite_max_heap_frame [[(some 1 : Cell)]] [0]
    [[(some 1 : Cell)], [(some 1 : Cell)]] [(some 1 : Cell)] (by decide) 0 (by decide)

/-! ### decoder.py — sentinel handling and unit conversion of `decode_grib2` -/

/-- `MM_PER_INCH = 25.4` (src/processing/decoder.py line 13). -/
def MM_PER_INCH : ℚ := mkRat 254 10

/-- `MRMS_MISSING_VALUE = 3.4028234663852886e+38` (decoder.py line 16),
as an exact rational. -/
def MRMS_MISSING_VALUE : ℚ := 34028234663852886 * 10 ^ 22

/-- One cell of the normalisation in `decode_grib2` (decoder.py lines 45–52):
`data[data >= MRMS_MISSING_VALUE / 2] = np.nan`, then
`data[data < 0] = np.nan`, then `data = data / MM_PER_INCH`.
A cell that is already NaN stays NaN (`NaN >= x` and `NaN < 0` are false in
numpy, and `NaN / s` is NaN). -/
def normalizeCell : Cell → Cell
  | none => none
  | some v =>
      if v ≥ MRMS_MISSING_VALUE / 2 then none
      else if v < 0 then none
      else some (v / MM_PER_INCH)

/-- The whole-array normalisation of `decode_grib2` (the three vectorised
numpy statements act cell-wise). -/
def decodeNormalize (raw : Grid) : Grid := raw.map normalizeCell

/-! ### Per-polygon transform sequence (polygonize.py / repository.py)

The shapely geometry algorithms themselves are external; what the source determines
is the exact sequence of operations applied to each polygon.  `GExpr` records
that sequence symbolically, one constructor per shapely call site. -/

/-- Symbolic geometry expression. `raw` is one polygon as produced by
`rasterio.features.shapes` (extraction path) or loaded from a stored feature
(read path). `buffer2 g d₁ d₂` is the consecutive pair
`g.buffer(d₁).buffer(d₂)` of polygonize.py line 127 — no other operation
intervenes between the two buffer calls, and both the spec and the source
treat the round-trip as one edge-smoothing transform.  `simplifyTP` is
`simplify(tol, preserve_topology=True)`; `interBox` is `intersection` with a
rectangle `(min_lon, min_lat, max_lon, max_lat)`. -/
inductive GExpr where
  | raw : GExpr
  | makeValid : GExpr → GExpr
  | buffer2 : GExpr → ℚ → ℚ → GExpr
  | simplifyTP : GExpr → ℚ → GExpr
  | interBox : GExpr → ℚ × ℚ × ℚ × ℚ → GExpr
deriving DecidableEq, Repr

/-- The sequence of geometry operations applied to one polygon in
`_polygonize_threshold` (polygonize.py lines 119–155).  The value-dependent
drop tests between them (`geom.area < min_area_deg2` at line 138,
`geom.is_empty` at line 154) discard a polygon outright but apply no
transform, so they do not alter the operation sequence of a surviving
polygon. -/
def polygonizeGeom (simplify_tolerance : ℚ)
    (bbox : Option (ℚ × ℚ × ℚ × ℚ)) : GExpr :=
  -- Step 3: geom = make_valid(shape(geom_dict))
  let g := GExpr.makeValid GExpr.raw
  -- Step 4: geom = geom.buffer(0.02).buffer(-0.02); geom = make_valid(geom)
  let g := GExpr.makeValid (GExpr.buffer2 g (mkRat 2 100) (-(mkRat 2 100)))
  -- Step 5: simplify then make_valid, only when simplify_tolerance > 0
  let g := if simplify_tolerance > 0
    then GExpr.makeValid (GExpr.simplifyTP g simplify_tolerance)
    else g
  -- Step 7: clip to bbox when provided — not followed by make_valid
  match bbox with
  | none => g
  | some b => GExpr.interBox g b

/-- The per-feature geometry transform of `_clip_features_to_bbox`
(repository.py lines 212 and 215): `geom = make_valid(shape(...))`, then
`clipped = geom.intersection(clip_box)` — nothing after the intersection. -/
def clipFeatureGeom (b : ℚ × ℚ × ℚ × ℚ) : GExpr :=
  GExpr.interBox (GExpr.makeValid GExpr.raw) b

mutual

/-- Every transform node in the expression is immediately followed by a
`make_valid`, and the outermost operation is not an unrepaired transform. -/
def repairedOutside : GExpr → Bool
  | .raw => true
  | .makeValid g => repairedInside g
  | .buffer2 _ _ _ => false
  | .simplifyTP _ _ => false
  | .interBox _ _ => false

/-- Directly under a `make_valid` the node itself may be a transform, but its
operand must again be fully repaired. -/
def repairedInside : GExpr → Bool
  | .raw => true
  | .makeValid g => repairedInside g
  | .buffer2 g _ _ => repairedOutside g
  | .simplifyTP g _ => repairedOutside g
  | .interBox g _ => repairedOutside g

end

/-! ### db/repository.py — the Swath Store -/

/-- One GeoJSON feature as the store sees it: its threshold property, the
product label it is tagged with, and an abstract geometry identifier.  The
remaining properties (start/end time, source files, creation timestamp) are
copied verbatim alongside and play no role in any claim. -/
structure Feature where
  threshold : ℚ
  product : String
  geom : Nat
deriving DecidableEq, Repr

/-- One row of `hail_swaths`: the `UNIQUE (valid_date, threshold)` key, the
JSONB array of that threshold's features, and the product column taken from
the first feature's properties. -/
structure Row where
  valid_date : String
  threshold : ℚ
  features : List Feature
  product : String
deriving DecidableEq, Repr

/-- The `hail_swaths` table. -/
abbrev DB := List Row

/-- `swaths_exist` (repository.py lines 58–73):
`SELECT 1 FROM hail_swaths WHERE valid_date = %s LIMIT 1`. -/
def swaths_exist (db : DB) (valid_date : String) : Bool :=
  db.any (fun r => r.valid_date = valid_date)

/-- The threshold keys of `by_threshold`, in first-occurrence order, as built
by the grouping loop of `insert_swaths` (Python dicts preserve insertion
order). -/
def thresholdKeys (fc : List Feature) : List ℚ :=
  fc.foldl (fun ks f => if f.threshold ∈ ks then ks else ks ++ [f.threshold]) []

/-- `ON CONFLICT (valid_date, threshold) DO NOTHING`: does the table already
hold a row with this key? -/
def rowExists (db : DB) (d : String) (t : ℚ) : Bool :=
  db.any (fun r => r.valid_date = d && r.threshold = t)

/-- `insert_swaths` (repository.py lines 76–137).  Empty feature list: return
0 having inserted nothing (lines 98–101).  Otherwise group by threshold,
insert one row per group unless the `(valid_date, threshold)` key already
exists, and return `len(by_threshold)` — the number of groups in the
argument, whether or not any row was actually inserted. -/
def insert_swaths (db : DB) (fc : List Feature) (valid_date : String) : DB × Nat :=
  match fc with
  | [] => (db, 0)
  | sample :: _ =>
      let ks := thresholdKeys fc
      let db2 := ks.foldl (fun acc t =>
          if rowExists acc valid_date t then acc
          else acc ++ [⟨valid_date, t, fc.filter (fun f => f.threshold = t),
                        sample.product⟩]) db
      (db2, ks.length)

/-- Insertion into a list kept in descending threshold order
(`ORDER BY threshold DESC`; rows are unique per (date, threshold), so any
sort realises the SQL ordering). -/
def insertDesc (r : Row) : List Row → List Row
  | [] => [r]
  | s :: rest =>
      if s.threshold ≤ r.threshold then r :: s :: rest else s :: insertDesc r rest

/-- Sort rows by threshold, descending. -/
def sortByThresholdDesc (rows : List Row) : List Row := rows.foldr insertDesc []

/-- `get_swaths` (repository.py lines 140–188) as called by the transformer:
no threshold filter and no bbox (the optional read-time bbox clip is the
subject of `clipFeatureGeom`).  Select the date's rows, order by threshold
descending, and flatten their feature arrays. -/
def get_swaths (db : DB) (valid_date : String) : List Feature :=
  ((sortByThresholdDesc (db.filter (fun r => r.valid_date = valid_date))).map
    Row.features).flatten

/-! ### pipeline/transformer.py — the per-day state machine -/

/-- `THRESHOLDS_INCHES` (polygonize.py line 16). -/
def THRESHOLDS_INCHES : List ℚ :=
  [mkRat 50 100, mkRat 75 100, 1, mkRat 125 100, mkRat 150 100,
   mkRat 175 100, 2, mkRat 225 100, mkRat 250 100, mkRat 275 100]

/-- `DEFAULT_THRESHOLDS = THRESHOLDS_INCHES` (transformer.py line 37). -/
def DEFAULT_THRESHOLDS : List ℚ := THRESHOLDS_INCHES

/-- `PRODUCT_PREFIX` (src/ingest/fetcher.py line 16). -/
def PRODUCT_PREFIX : String := "CONUS/MESH_Max_60min_00.50"

/-- The product label the transformer passes to `grid_to_swaths`
(transformer.py line 172). -/
def TRANSFORMER_PRODUCT : String := "MESH_Max_1440min"

/-- Does the second list start with the first? -/
def startsWith : List Char → List Char → Bool
  | [], _ => true
  | _ :: _, [] => false
  | p :: ps, x :: xs => p = x && startsWith ps xs

/-- The suffix after the first occurrence of a (non-empty) pattern, `none`
when the pattern does not occur. -/
def dropAfter (pat : List Char) : List Char → Option (List Char)
  | [] => none
  | x :: xs =>
      if startsWith pat (x :: xs) then some ((x :: xs).drop pat.length)
      else dropAfter pat xs

/-- The number denoted by a list of decimal digits. -/
def digitsToNat (l : List Char) : Nat :=
  l.foldl (fun n c => n * 10 + (c.toNat - 48)) 0

/-- The rolling-window length in minutes encoded in an MRMS product name:
the digits between `_Max_` and the following `min`. -/
def productWindowMin (s : String) : Option Nat :=
  match dropAfter ['_', 'M', 'a', 'x', '_'] s.data with
  | none => none
  | some rest =>
      let ds := rest.takeWhile Char.isDigit
      if 0 < ds.length && startsWith ['m', 'i', 'n'] (rest.drop ds.length) then
        some (digitsToNat ds)
      else none

/-- Split a character list on a separator character. -/
def splitOnChar (c : Char) : List Char → List (List Char)
  | [] => [[]]
  | x :: xs =>
      let r := splitOnChar c xs
      if x = c then [] :: r
      else match r with
        | [] => [[x]]
        | g :: gs => (x :: g) :: gs

/-- Month lengths, with the Gregorian leap rule for February. -/
def daysInMonth (y m : Nat) : Nat :=
  if m = 2 then (if (y % 4 = 0 && y % 100 ≠ 0) || y % 400 = 0 then 29 else 28)
  else if m = 4 || m = 6 || m = 9 || m = 11 then 30
  else 31

/-- Model of `_parse_date` (transformer.py lines 204–216), i.e. of
`datetime.strptime(date_str, "%Y-%m-%d")`: three dash-separated digit groups
(year up to 4 digits, month and day up to 2), with month and day in calendar
range for a year ≥ 1. -/
def isValidDate (s : String) : Bool :=
  match splitOnChar '-' s.data with
  | [ys, ms, ds] =>
      decide (0 < ys.length ∧ ys.length ≤ 4 ∧ ys.all Char.isDigit = true ∧
        0 < ms.length ∧ ms.length ≤ 2 ∧ ms.all Char.isDigit = true ∧
        0 < ds.length ∧ ds.length ≤ 2 ∧ ds.all Char.isDigit = true ∧
        1 ≤ digitsToNat ys ∧ 1 ≤ digitsToNat ms ∧ digitsToNat ms ≤ 12 ∧
        1 ≤ digitsToNat ds ∧
        digitsToNat ds ≤ daysInMonth (digitsToNat ys) (digitsToNat ms))
  | _ => false

/-- The external collaborators of `Transformer.run`, as oracles: the S3
listing for a product prefix over the day's window, download of a key to a
local path (`none` = raised exception), GRIB2 decode of a path (`none` =
raised exception), and `grid_to_swaths` extraction from a decoded grid with a
threshold list and optional bbox. -/
structure World where
  listing : String → List String
  fetchRes : String → Option String
  decodeRes : String → Option Grid
  extractRes : Grid → List ℚ → Option (ℚ × ℚ × ℚ × ℚ) → List Feature

/-- Trace of the external calls a run performs. `compositeCall` would mark a
use of `composite_max`; `Transformer.run` never emits it. -/
inductive Ev where
  | listCall (product : String)
  | fetchCall (key : String)
  | decodeCall (path : String)
  | extractCall (thresholds : List ℚ) (bbox : Option (ℚ × ℚ × ℚ × ℚ)) (product : String)
  | insertCall (date : String)
  | unlinkCall (path : String)
  | compositeCall
deriving DecidableEq, Repr

/-- `Transformer.run` (transformer.py lines 57–201), as a function of the
external world, the database value, and the date string, returning the
GeoJSON features, the new database, and the trace of external calls.
`Except.error` is the `ValueError` of step 1; every other failure the source
handles internally.  Step order follows the source: validate, check the
store (a hit returns stored data with an empty trace), list, take the last
key (`keys[-1]`), fetch, decode, extract at `DEFAULT_THRESHOLDS` with
`bbox=None`, insert, unlink the cache file, and re-read from the store. -/
def Transformer.run (w : World) (db : DB) (date_str : String) :
    Except String (List Feature × DB × List Ev) :=
  if isValidDate date_str = false then
    Except.error "Invalid date"
  else if swaths_exist db date_str then
    Except.ok (get_swaths db date_str, db, [])
  else
    let keys := w.listing PRODUCT_PREFIX
    match keys.getLast? with
    | none => Except.ok ([], db, [Ev.listCall PRODUCT_PREFIX])
    | some last_key =>
      match w.fetchRes last_key with
      | none => Except.ok ([], db, [Ev.listCall PRODUCT_PREFIX, Ev.fetchCall last_key])
      | some local_path =>
        match w.decodeRes local_path with
        | none =>
            Except.ok ([], db,
              [Ev.listCall PRODUCT_PREFIX, Ev.fetchCall last_key,
               Ev.decodeCall local_path])
        | some data =>
            let fc := w.extractRes data DEFAULT_THRESHOLDS none
            let db2 := (insert_swaths db fc date_str).1
            Except.ok (get_swaths db2 date_str, db2,
              [Ev.listCall PRODUCT_PREFIX, Ev.fetchCall last_key,
               Ev.decodeCall local_path,
               Ev.extractCall DEFAULT_THRESHOLDS none TRANSFORMER_PRODUCT,
               Ev.insertCall date_str, Ev.unlinkCall local_path])

/-- The database component of a run result (an errored run leaves the store
as it was; the empty store stands in for the unreachable case). -/
def runDB (db : DB) (r : Except String (List Feature × DB × List Ev)) : DB :=
  match r with
  | Except.ok (_, db2, _) => db2
  | Except.error _ => db

/-- The threshold mask of `_polygonize_threshold` (polygonize.py lines
106–108): a cell is selected iff its smoothed value is ≥ the threshold and
the original cell was not NaN.  The polygons for a threshold are derived
from this mask by external geometry code (`rasterio.features.shapes`,
shapely `buffer`/`simplify`/`intersection`). -/
def thresholdMask (smoothed : List ℚ) (nanMask : List Bool) (t : ℚ) : List Bool :=
  List.zipWith (fun v m => decide (t ≤ v) && !m) smoothed nanMask

/-- Raising the threshold only shrinks the mask: every cell selected at the
higher threshold is selected at the lower one (supporting development for the
monotonic-shrinkage property; the subsequent per-polygon geometry passes are
external to the repository). -/
theorem thresholdMask_antitone (smoothed : List ℚ) (nanMask : List Bool)
    (t1 t2 : ℚ) (h12 : t1 ≤ t2) (i : Nat)
    (hi : (thresholdMask smoothed nanMask t2).get? i = some true) :
    (thresholdMask smoothed nanMask t1).get? i = some true := by
  induction smoothed generalizing nanMask i with
  | nil => simp [thresholdMask] at hi
  | cons v vs ih =>
      cases nanMask with
      | nil => simp [thresholdMask] at hi
      | cons m ms =>
          cases i with
          | zero =>
              simp only [thresholdMask, List.zipWith, List.get?,
                Option.some.injEq, Bool.and_eq_true, decide_eq_true_eq,
                Bool.not_eq_eq_eq_not, Bool.not_true] at hi ⊢
              exact ⟨le_trans h12 hi.1, hi.2⟩
          | succ j => exact ih ms j (by simpa [thresholdMask] using hi)

/-! ### Concrete worlds used to instantiate the run-level theorems -/

/-- A world whose S3 listing is empty for every prefix and whose other
collaborators always fail. -/
def emptyWorld : World :=
  { listing := fun _ => []
    fetchRes := fun _ => none
    decodeRes := fun _ => none
    extractRes := fun _ _ _ => [] }

/-- A world that lists one key whose download raises. -/
def fetchFailWorld : World :=
  { listing := fun _ => ["MRMS_key.grib2.gz"]
    fetchRes := fun _ => none
    decodeRes := fun _ => none
    extractRes := fun _ _ _ => [] }

/-- A fully successful world: three listed keys, download and decode succeed,
and extraction yields one 0.5-inch feature tagged with the transformer's
product label. -/
def happyWorld : World :=
  { listing := fun _ => ["k1", "k2", "k3"]
    fetchRes := fun k => some (k ++ ".grib2")
    decodeRes := fun _ => some [some 1]
    extractRes := fun _ _ _ => [⟨mkRat 1 2, "MESH_Max_1440min", 0⟩] }

/-! ### The claims -/

/-- C9: `decode_grib2` replaces every raw cell at or above half the format's
maximum representable magnitude with the missing sentinel, and every negative
raw cell with the sentinel, before the fixed linear mm→inch conversion: the
sentinel test compares raw (unscaled) values, those cells come out as NaN,
and every remaining cell equals the raw value divided by the fixed scale —
no sentinel-magnitude or negative raw value is ever scaled into the output. -/
theorem decode_normalize_sentinel_before_scale (raw : Grid) (i : Nat) (v : ℚ)
    (hv : raw.get? i = some (some v)) :
    (v ≥ MRMS_MISSING_VALUE / 2 → (decodeNormalize raw).get? i = some none) ∧
    (v < 0 → (decodeNormalize raw).get? i = some none) ∧
    (0 ≤ v → v < MRMS_MISSING_VALUE / 2 →
      (decodeNormalize raw).get? i = some (some (v / MM_PER_INCH))) := by
  have hmap : (decodeNormalize raw).get? i = (raw.get? i).map normalizeCell := by
    simp [decodeNormalize, List.get?_map]
  rw [hmap, hv]
  refine ⟨fun h => by simp [normalizeCell, h], fun h => ?_, fun h1 h2 => ?_⟩
  · have hM : (0:ℚ) < MRMS_MISSING_VALUE / 2 := by norm_num [MRMS_MISSING_VALUE]
    have hge : ¬ v ≥ MRMS_MISSING_VALUE / 2 := by linarith
    simp [normalizeCell, hge, h]
  · have hge : ¬ v ≥ MRMS_MISSING_VALUE / 2 := not_le.mpr h2
    have hneg : ¬ v < 0 := not_lt.mpr h1
    simp [normalizeCell, hge, hneg]

theorem decode_normalize_sentinel_before_scale_witness :
    ([some 400] : Grid).get? 0 = some (some 400) ∧
    (decodeNormalize [some 400]).get? 0 = some (some ((400 : ℚ) / MM_PER_INCH)) :=
  ⟨rfl, (decode_normalize_sentinel_before_scale [some 400] 0 400 rfl).2.2
    (by norm_num) (by norm_num [MRMS_MISSING_VALUE])⟩

/-- C4 (counterexample): with the default tolerance 0.005 and a bounding box,
the last operation applied to a clipped polygon on the extraction path is a
bare `intersection` with no `make_valid` after it, and likewise on the read
path (`_clip_features_to_bbox`): on neither path is every transform
immediately followed by a repair. -/
theorem polygonize_clip_unrepaired_cex :
    repairedOutside (polygonizeGeom (mkRat 5 1000) (some (0, 0, 1, 1))) = false ∧
    repairedOutside (clipFeatureGeom (0, 0, 1, 1)) = false :=
  ⟨rfl, rfl⟩

/-- C4 (amended): validity repair is applied immediately after vectorization,
again after the buffer round-trip, and — when the tolerance is positive —
again after simplification on the extraction path, and the read path repairs
before clipping; but neither path repairs after the bbox clip: the final
geometry of a clipped polygon is the bare intersection of the repaired
pre-clip geometry with the box. -/
theorem polygonize_repaired_except_after_clip (tol : ℚ) (ht : 0 < tol)
    (b : ℚ × ℚ × ℚ × ℚ) :
    repairedOutside (polygonizeGeom tol none) = true ∧
    polygonizeGeom tol (some b) =
      GExpr.interBox (GExpr.makeValid (GExpr.simplifyTP
        (GExpr.makeValid (GExpr.buffer2 (GExpr.makeValid GExpr.raw)
          (mkRat 2 100) (-(mkRat 2 100)))) tol)) b ∧
    clipFeatureGeom b = GExpr.interBox (GExpr.makeValid GExpr.raw) b := by
  refine ⟨?_, ?_, rfl⟩
  · simp only [polygonizeGeom]
    rw [if_pos ht]
    rfl
  · simp only [polygonizeGeom]
    rw [if_pos ht]

theorem polygonize_repaired_except_after_clip_witness :
    (0 : ℚ) < mkRat 5 1000 ∧
    repairedOutside (polygonizeGeom (mkRat 5 1000) none) = true :=
  ⟨by decide,
    (polygonize_repaired_except_after_clip (mkRat 5 1000) (by decide) (0, 0, 1, 1)).1⟩

/-- C2 / code bug: `insert_swaths` returns `len(by_threshold)` — the number of
threshold groups in its argument — not the number of rows actually inserted.
The first call inserts one row and returns 1; the identical repeat call
inserts nothing (the store is unchanged) yet still returns 1, where both the
claim and the function's own docstring require 0. -/
theorem insert_swaths_repeat_reports_group_count :
    insert_swaths [] [⟨mkRat 1 2, "MESH_Max_1440min", 7⟩] "2024-05-22" =
      ([⟨"2024-05-22", mkRat 1 2, [⟨mkRat 1 2, "MESH_Max_1440min", 7⟩],
         "MESH_Max_1440min"⟩], 1) ∧
    insert_swaths
        [⟨"2024-05-22", mkRat 1 2, [⟨mkRat 1 2, "MESH_Max_1440min", 7⟩],
          "MESH_Max_1440min"⟩]
        [⟨mkRat 1 2, "MESH_Max_1440min", 7⟩] "2024-05-22" =
      ([⟨"2024-05-22", mkRat 1 2, [⟨mkRat 1 2, "MESH_Max_1440min", 7⟩],
         "MESH_Max_1440min"⟩], 1) ∧
    (1 : Nat) ≠ 0 :=
  ⟨rfl, rfl, by decide⟩

/-- C1 (amended): for every date already present in the store, `run` returns
the stored Day Record with an empty external-call trace — so calling twice
yields the same record and the second call performs no listing, download or
decode.  The "stored empty polygon set" case cannot arise: inserting an empty
feature collection stores nothing and reports 0. -/
theorem run_store_hit_zero_external_calls (w : World) (db : DB) (d : String)
    (hv : isValidDate d = true) (hd : swaths_exist db d = true) :
    Transformer.run w db d = Except.ok (get_swaths db d, db, []) ∧
    insert_swaths db [] d = (db, 0) := by
  refine ⟨?_, rfl⟩
  simp [Transformer.run, hv, hd]

theorem run_store_hit_zero_external_calls_witness :
    isValidDate "2024-05-22" = true ∧
    swaths_exist [⟨"2024-05-22", mkRat 1 2, [], "p"⟩] "2024-05-22" = true ∧
    (Transformer.run emptyWorld [⟨"2024-05-22", mkRat 1 2, [], "p"⟩] "2024-05-22" =
        Except.ok (get_swaths [⟨"2024-05-22", mkRat 1 2, [], "p"⟩] "2024-05-22",
          [⟨"2024-05-22", mkRat 1 2, [], "p"⟩], []) ∧
      insert_swaths [⟨"2024-05-22", mkRat 1 2, [], "p"⟩] [] "2024-05-22" =
        ([⟨"2024-05-22", mkRat 1 2, [], "p"⟩], 0)) :=
  ⟨by decide, by decide,
    run_store_hit_zero_external_calls emptyWorld
      [⟨"2024-05-22", mkRat 1 2, [], "p"⟩] "2024-05-22" (by decide) (by decide)⟩

/-- C1 (counterexample): a first call whose listing is empty produces an empty
polygon set and stores nothing — the store it returns is still empty — and
the second call, on the store left by the first, performs an external listing
again, not zero external calls. -/
theorem run_after_empty_first_call_lists_again :
    Transformer.run emptyWorld [] "2024-05-22" =
      Except.ok ([], [], [Ev.listCall PRODUCT_PREFIX]) ∧
    Transformer.run emptyWorld
        (runDB [] (Transformer.run emptyWorld [] "2024-05-22")) "2024-05-22" =
      Except.ok ([], [], [Ev.listCall PRODUCT_PREFIX]) ∧
    ([Ev.listCall PRODUCT_PREFIX] : List Ev) ≠ [] :=
  ⟨rfl, rfl, by simp⟩

/-- C3 (amended): on a store miss, a failure in fetch — or in decode after a
successful fetch — is caught and converted into an empty FeatureCollection
returned normally (no exception propagates to the caller), but the day is NOT
recorded in the store: the database comes back unchanged, so a later call
retries the external pipeline. -/
theorem run_fetch_decode_failure_returns_empty (w : World) (db : DB) (d : String)
    (hv : isValidDate d = true) (hmiss : swaths_exist db d = false)
    (k : String) (hk : (w.listing PRODUCT_PREFIX).getLast? = some k)
    (hfail : w.fetchRes k = none ∨
      ∃ p, w.fetchRes k = some p ∧ w.decodeRes p = none) :
    ∃ evs, Transformer.run w db d = Except.ok ([], db, evs) := by
  rcases hfail with hf | ⟨p, hp, hd2⟩
  · exact ⟨[Ev.listCall PRODUCT_PREFIX, Ev.fetchCall k],
      by simp [Transformer.run, hv, hmiss, hk, hf]⟩
  · exact ⟨[Ev.listCall PRODUCT_PREFIX, Ev.fetchCall k, Ev.decodeCall p],
      by simp [Transformer.run, hv, hmiss, hk, hp, hd2]⟩

theorem run_fetch_decode_failure_returns_empty_witness :
    isValidDate "2024-05-22" = true ∧
    swaths_exist [] "2024-05-22" = false ∧
    (fetchFailWorld.listing PRODUCT_PREFIX).getLast? = some "MRMS_key.grib2.gz" ∧
    fetchFailWorld.fetchRes "MRMS_key.grib2.gz" = none ∧
    (∃ evs, Transformer.run fetchFailWorld [] "2024-05-22" =
      Except.ok ([], [], evs)) :=
  ⟨by decide, by decide, rfl, rfl,
    run_fetch_decode_failure_returns_empty fetchFailWorld [] "2024-05-22"
      (by decide) (by decide) "MRMS_key.grib2.gz" rfl (Or.inl rfl)⟩

/-- C3 (counterexample): with a failing download on a store miss, the run
returns an empty result normally, but the resulting store still does not
contain the date — the day is not "recorded as empty in the store". -/
theorem run_fetch_failure_day_not_recorded :
    Transformer.run fetchFailWorld [] "2024-05-22" =
      Except.ok ([], [],
        [Ev.listCall PRODUCT_PREFIX, Ev.fetchCall "MRMS_key.grib2.gz"]) ∧
    swaths_exist
      (runDB [] (Transformer.run fetchFailWorld [] "2024-05-22")) "2024-05-22"
      = false :=
  ⟨rfl, by decide⟩

/-- C5 / code bug: on a store miss with a non-empty listing, the pipeline
fetches and decodes only the single most-recent (last) listed key and never
composites across files — but the prefix it lists encodes a 60-minute rolling
window while the product label it stores claims 1440 minutes: a single
60-minute file cannot cover the full day, contradicting the claim's
justification and the transformer's own comments. -/
theorem run_single_fetch_sixty_minute_window :
    Transformer.run happyWorld [] "2024-05-22" =
      Except.ok ([⟨mkRat 1 2, "MESH_Max_1440min", 0⟩],
        [⟨"2024-05-22", mkRat 1 2, [⟨mkRat 1 2, "MESH_Max_1440min", 0⟩],
          "MESH_Max_1440min"⟩],
        [Ev.listCall PRODUCT_PREFIX, Ev.fetchCall "k3", Ev.decodeCall "k3.grib2",
         Ev.extractCall DEFAULT_THRESHOLDS none TRANSFORMER_PRODUCT,
         Ev.insertCall "2024-05-22", Ev.unlinkCall "k3.grib2"]) ∧
    happyWorld.listing PRODUCT_PREFIX = ["k1", "k2", "k3"] ∧
    productWindowMin PRODUCT_PREFIX = some 60 ∧
    productWindowMin TRANSFORMER_PRODUCT = some 1440 ∧
    (60 : Nat) < 24 * 60 :=
  ⟨rfl, rfl, by decide, by decide, by decide⟩

/-- C6: any extraction event emitted by `Transformer.run` — for every world,
store and date — carries the complete canonical threshold list and no
bounding box. -/
theorem run_extract_full_thresholds_no_bbox (w : World) (db : DB) (d : String)
    (out : List Feature × DB × List Ev)
    (hrun : Transformer.run w db d = Except.ok out)
    (ts : List ℚ) (bb : Option (ℚ × ℚ × ℚ × ℚ)) (p : String)
    (hmem : Ev.extractCall ts bb p ∈ out.2.2) :
    ts = THRESHOLDS_INCHES ∧ bb = none := by
  unfold Transformer.run at hrun
  dsimp only at hrun
  split at hrun
  · simp at hrun
  split at hrun
  · have h := Except.ok.inj hrun
    rw [← h] at hmem
    simp at hmem
  split at hrun
  · have h := Except.ok.inj hrun
    rw [← h] at hmem
    simp at hmem
  next last_key _ =>
    split at hrun
    · have h := Except.ok.inj hrun
      rw [← h] at hmem
      simp at hmem
    next local_path _ =>
      split at hrun
      · have h := Except.ok.inj hrun
        rw [← h] at hmem
        simp at hmem
      next data _ =>
        have h := Except.ok.inj hrun
        rw [← h] at hmem
        simp only [List.mem_cons, List.not_mem_nil, or_false] at hmem
        rcases hmem with h1 | h1 | h1 | h1 | h1 | h1 <;>
          cases h1 <;> exact ⟨rfl, rfl⟩

theorem run_extract_full_thresholds_no_bbox_witness :
    DEFAULT_THRESHOLDS = THRESHOLDS_INCHES ∧
    (none : Option (ℚ × ℚ × ℚ × ℚ)) = none :=
  run_extract_full_thresholds_no_bbox happyWorld [] "2024-05-22"
    ([⟨mkRat 1 2, "MESH_Max_1440min", 0⟩],
     [⟨"2024-05-22", mkRat 1 2, [⟨mkRat 1 2, "MESH_Max_1440min", 0⟩],
       "MESH_Max_1440min"⟩],
     [Ev.listCall PRODUCT_PREFIX, Ev.fetchCall "k3", Ev.decodeCall "k3.grib2",
      Ev.extractCall DEFAULT_THRESHOLDS none TRANSFORMER_PRODUCT,
      Ev.insertCall "2024-05-22", Ev.unlinkCall "k3.grib2"])
    rfl DEFAULT_THRESHOLDS none TRANSFORMER_PRODUCT (by decide)

end HailSwaths
